import Mathlib

/-!
Verification of the core of `mdv` (`src/main.rs`), a multi-workspace
markdown preview server.  The stateful Rust code is shallowly embedded:
filesystem access is abstracted as a snapshot structure, the `HashMap`
registry is modelled as an association list in iteration order, broadcast
sends are modelled as the list of published values, and the watcher thread
is modelled by the set of running watcher threads plus a pure function on
the message sequence its channel receiver yields.
-/

namespace Mdv

/-- Abstract snapshot of the filesystem at one instant.
`canonicalize` mirrors `std::fs::canonicalize` on a path string: it
returns the components of the canonical absolute form (all symlinks and
`..`/`.` segments resolved) when the target exists, and `none` when the
target does not exist or resolution fails.  `isDir` mirrors
`Path::is_dir` on an already canonical component list. -/
structure FileSystem where
  canonicalize : String → Option (List String)
  isDir : List String → Bool

/-- `requested_path.trim_start_matches('/')`: drop every leading slash. -/
def trimLeadingSlashes (s : String) : String :=
  String.mk (s.toList.dropWhile (fun c => c = '/'))

/-- `Path::is_absolute` on Unix: the path begins with a `/`. -/
def isAbsolutePath (s : String) : Bool :=
  match s.toList with
  | '/' :: _ => true
  | _ => false

/-- The path's last character is the separator `/`. -/
def endsWithSlash (s : String) : Bool :=
  match s.toList.getLast? with
  | some '/' => true
  | _ => false

/-- `Path::join` on Unix: an absolute right operand replaces the left one,
otherwise the right operand is appended after a separator (none added when
the left operand already ends in one). -/
def rustJoin (root p : String) : String :=
  if isAbsolutePath p then p
  else if endsWithSlash root then root ++ p
  else root ++ "/" ++ p

/-- Display form of a canonical component list, as `PathBuf` would print
it: absolute, components separated by single slashes. -/
def pathToString (components : List String) : String :=
  "/" ++ String.intercalate "/" components

/-- `validate_path` from `src/main.rs`: strip leading slashes from the
requested path, join it onto `root`, canonicalize, re-canonicalize `root`
itself, and accept only when the result starts with (`Path::starts_with`,
i.e. component-wise prefix) the canonical root. -/
def validate_path (fs : FileSystem) (root : String) (requested_path : String) :
    Option (List String) :=
  let cleaned_path := trimLeadingSlashes requested_path
  let full_path := rustJoin root cleaned_path
  match fs.canonicalize full_path with
  | some canonical =>
    match fs.canonicalize root with
    | some root_canonical =>
      if root_canonical.isPrefixOf canonical then some canonical else none
    | none => none
  | none => none

/-! ### Workspace id generation

`generate_workspace_id` feeds the canonical root `PathBuf` into
`std::collections::hash_map::DefaultHasher`, which is SipHash-1-3 with
both keys zero; `Hash for Path` writes the bytes of the normal components
(separators and `.` components skipped) followed by the hashed byte count
as a little-endian `usize`.  The id is the root's final component (or
`"workspace"` when there is none) joined with the low 16 bits of the
hash (`hash & 0xFFFF`) printed as lowercase hex. -/

def M64 : Nat := 18446744073709551616

structure SipState where
  v0 : Nat
  v1 : Nat
  v2 : Nat
  v3 : Nat

def wadd (a b : Nat) : Nat := (a + b) % M64

def rotl64 (x r : Nat) : Nat := ((x <<< r) % M64) ||| (x >>> (64 - r))

def sipRound (s : SipState) : SipState :=
  let v0 := wadd s.v0 s.v1
  let v1 := rotl64 s.v1 13
  let v1 := Nat.xor v1 v0
  let v0 := rotl64 v0 32
  let v2 := wadd s.v2 s.v3
  let v3 := rotl64 s.v3 16
  let v3 := Nat.xor v3 v2
  let v0 := wadd v0 v3
  let v3 := rotl64 v3 21
  let v3 := Nat.xor v3 v0
  let v2 := wadd v2 v1
  let v1 := rotl64 v1 17
  let v1 := Nat.xor v1 v2
  let v2 := rotl64 v2 32
  ⟨v0, v1, v2, v3⟩

def sipRounds : Nat → SipState → SipState
  | 0, s => s
  | n + 1, s => sipRounds n (sipRound s)

/-- Little-endian word from a byte list (first byte is least significant). -/
def le64 : List Nat → Nat
  | [] => 0
  | b :: rest => b + 256 * le64 rest

/-- Compress every complete 8-byte block into the state (`c` rounds per
block), returning the remaining tail of fewer than 8 bytes. -/
def sipBlocks (c : Nat) (s : SipState) : List Nat → SipState × List Nat
  | b0 :: b1 :: b2 :: b3 :: b4 :: b5 :: b6 :: b7 :: rest =>
    let m := le64 [b0, b1, b2, b3, b4, b5, b6, b7]
    let s1 := { s with v3 := Nat.xor s.v3 m }
    let s2 := sipRounds c s1
    let s3 := { s2 with v0 := Nat.xor s2.v0 m }
    sipBlocks c s3 rest
  | tail => (s, tail)

/-- SipHash with `c` compression rounds and `d` finalization rounds, as in
`core::hash::sip` (validated against the SipHash-2-4 reference vectors). -/
def sipHash (c d k0 k1 : Nat) (msg : List Nat) : Nat :=
  let s0 : SipState :=
    ⟨Nat.xor k0 0x736f6d6570736575, Nat.xor k1 0x646f72616e646f6d,
     Nat.xor k0 0x6c7967656e657261, Nat.xor k1 0x7465646279746573⟩
  let sb := sipBlocks c s0 msg
  let b := ((msg.length % 256) <<< 56) ||| le64 sb.2
  let s1 := { sb.1 with v3 := Nat.xor sb.1.v3 b }
  let s2 := sipRounds c s1
  let s3 := { s2 with v0 := Nat.xor s2.v0 b }
  let s4 := { s3 with v2 := Nat.xor s3.v2 0xff }
  let s5 := sipRounds d s4
  Nat.xor (Nat.xor s5.v0 s5.v1) (Nat.xor s5.v2 s5.v3)

/-- UTF-8 encoding of one character. -/
def utf8Bytes (c : Char) : List Nat :=
  let n := c.toNat
  if n < 0x80 then [n]
  else if n < 0x800 then [0xC0 + n / 64, 0x80 + n % 64]
  else if n < 0x10000 then [0xE0 + n / 4096, 0x80 + (n / 64) % 64, 0x80 + n % 64]
  else [0xF0 + n / 262144, 0x80 + (n / 4096) % 64, 0x80 + (n / 64) % 64, 0x80 + n % 64]

def strBytes (s : String) : List Nat :=
  (s.toList.map utf8Bytes).flatten

/-- A `usize` as its 8 little-endian bytes (`to_ne_bytes` on x86-64). -/
def le8Bytes (n : Nat) : List Nat :=
  [n % 256, n / 256 % 256, n / 65536 % 256, n / 16777216 % 256,
   n / 4294967296 % 256, n / 1099511627776 % 256, n / 281474976710656 % 256,
   n / 72057594037927936 % 256]

/-- The byte stream `Hash for Path` feeds into the hasher for a canonical
Unix path: the bytes of the normal components concatenated, then the
number of bytes hashed as a little-endian `usize`. -/
def pathHashBytes (components : List String) : List Nat :=
  let bytes := (components.map strBytes).flatten
  bytes ++ le8Bytes bytes.length

/-- `Path::file_name`: the last component, unless it is a relative
marker (never present in a canonical path) or the path is bare root. -/
def rustFileName (components : List String) : Option String :=
  match components.getLast? with
  | some s => if s = "." || s = ".." then none else some s
  | none => none

/-- Lowercase hex rendering, as `format!("{:x}", _)`. -/
def toHex (n : Nat) : String := String.mk (Nat.toDigits 16 n)

/-- `generate_workspace_id` from `src/main.rs`: final component of the
canonical root (default `"workspace"`), a dash, and the low 16 bits of
the `DefaultHasher` (SipHash-1-3, zero keys) hash of the path in hex. -/
def generate_workspace_id (path : List String) : String :=
  let name := (rustFileName path).getD "workspace"
  let hash := sipHash 1 3 0 0 (pathHashBytes path)
  name ++ "-" ++ toHex (hash % 65536)

/-- Split a file name at its last dot: `some (stem, ext)` when a dot
exists, `none` otherwise. -/
def rsplitDot : List Char → Option (List Char × List Char)
  | [] => none
  | c :: rest =>
    match rsplitDot rest with
    | some (before, after) => some (c :: before, after)
    | none => if c = '.' then some ([], rest) else none

/-- `Path::extension` applied to a file name: the part after the last
dot, except that a leading dot (hidden files) does not start an
extension. -/
def rustExtension (name : String) : Option String :=
  match rsplitDot name.toList with
  | some ([], _) => none
  | some (_, after) => some (String.mk after)
  | none => none

/-- `p.extension()` for a path given by components. -/
def pathExtension (p : List String) : Option String :=
  match rustFileName p with
  | some name => rustExtension name
  | none => none

/-! ### Application state and handlers -/

/-- `WsCommand` from `src/main.rs` (the `RemoteCommand` wire union).
`percent` is the `u32` taken from the query string. -/
inductive WsCommand
  | navigate (url : String)
  | scroll (percent : Nat)
  | focus (workspace_id file_path : String)
  deriving DecidableEq

/-- A registry entry (the `watcher_handle` field is represented by the
separate list of running watcher threads). -/
structure Workspace where
  id : String
  root_dir : List String
  name : String
  deriving DecidableEq

/-- A running watcher OS thread: the workspace id it publishes and the
directory it polls. -/
structure WatcherThread where
  watch_id : String
  watch_dir : List String
  deriving DecidableEq

/-- The registry `HashMap` (as an association list in iteration order)
together with the watcher threads currently running in the process. -/
structure AppState where
  workspaces : List (String × Workspace)
  runningWatchers : List WatcherThread
  deriving DecidableEq

def st0 : AppState := { workspaces := [], runningWatchers := [] }

inductive RegisterOutcome
  | ok (id name url : String)
  | invalidPath (error : String)
  deriving DecidableEq

def RegisterOutcome.isClientError : RegisterOutcome → Bool
  | invalidPath _ => true
  | _ => false

/-- `api_register`: canonicalize the input (400 on failure), require a
directory (400 otherwise), derive id and name from the canonical path,
and — only when the id is not yet present — spawn a watcher thread and
insert the workspace; the response is always rebuilt from the canonical
path. -/
def api_register (fs : FileSystem) (st : AppState) (reqPath : String) :
    AppState × RegisterOutcome :=
  match fs.canonicalize reqPath with
  | none => (st, .invalidPath "Invalid path")
  | some canonical_path =>
    if fs.isDir canonical_path then
      let workspace_id := generate_workspace_id canonical_path
      let workspace_name := (rustFileName canonical_path).getD "workspace"
      let st1 :=
        if (st.workspaces.lookup workspace_id).isSome then st
        else
          { workspaces :=
              st.workspaces ++
                [(workspace_id,
                  { id := workspace_id, root_dir := canonical_path,
                    name := workspace_name })],
            runningWatchers :=
              st.runningWatchers ++
                [{ watch_id := workspace_id, watch_dir := canonical_path }] }
      (st1, .ok workspace_id workspace_name ("/view/" ++ workspace_id))
    else (st, .invalidPath "Path is not a directory")

inductive UnregisterOutcome
  | ok (id : String)
  | notFound
  deriving DecidableEq

/-- `api_unregister`: remove the registry entry if present and drop its
`watcher_handle`.  Dropping a `std::thread::JoinHandle` detaches the
thread rather than stopping it, and the watcher loop only exits when its
channel senders are dropped — but those live inside the watcher thread
itself — so the running watcher thread is left untouched. -/
def api_unregister (st : AppState) (workspace_id : String) :
    AppState × UnregisterOutcome :=
  if (st.workspaces.lookup workspace_id).isSome then
    ({ workspaces := st.workspaces.filter (fun kv => !(kv.1 == workspace_id)),
       runningWatchers := st.runningWatchers }, .ok workspace_id)
  else (st, .notFound)

inductive ActiveOutcome
  | ok (url workspace_id : String)
  | invalidPath
  | notInAnyWorkspace
  deriving DecidableEq

/-- One iteration of the `for` loop in `api_active`: re-canonicalize the
workspace root (skip on failure), test component-wise prefix, and on a
hit return the id with the input's path relative to that root. -/
def wsMatch (fs : FileSystem) (canonical_path : List String) :
    String × Workspace → Option (String × List String) :=
  fun entry =>
    match fs.canonicalize (pathToString entry.2.root_dir) with
    | some workspace_canonical =>
      if workspace_canonical.isPrefixOf canonical_path then
        some (entry.1, canonical_path.drop workspace_canonical.length)
      else none
    | none => none

/-- `api_active`: canonicalize the query path (400 on failure), take the
first registry entry whose re-canonicalized root is a prefix, publish
`Focus` then `Navigate` on the command bus and answer with the view URL;
otherwise publish nothing and answer 404. -/
def api_active (fs : FileSystem) (st : AppState) (queryPath : String) :
    List WsCommand × ActiveOutcome :=
  match fs.canonicalize queryPath with
  | none => ([], .invalidPath)
  | some canonical_path =>
    match st.workspaces.findSome? (wsMatch fs canonical_path) with
    | some hit =>
      let relative_str := String.intercalate "/" hit.2
      let url := "/view/" ++ hit.1 ++ "/" ++ relative_str
      ([WsCommand.focus hit.1 relative_str, WsCommand.navigate url], .ok url hit.1)
    | none => ([], .notInAnyWorkspace)

/-- Decimal parse of the `percent` query parameter as a `u32`, as the
serde query deserializer does: one or more digits, value below `2^32`. -/
def parseU32 (s : String) : Option Nat :=
  match s.toList with
  | [] => none
  | l =>
    if l.all (fun c => c.isDigit) then
      let n := l.foldl (fun acc c => acc * 10 + (c.toNat - 48)) 0
      if n < 4294967296 then some n else none
    else none

/-- The `/api/remote/scroll` endpoint: `none` when the query fails to
deserialize (rejected before the handler runs), otherwise the commands
the handler publishes. -/
def api_scroll (query : String) : Option (List WsCommand) :=
  match parseU32 query with
  | some percent => some [WsCommand.scroll percent]
  | none => none

/-- One result of `Receiver::recv` on the reload bus as seen by an SSE
stream. -/
inductive RecvItem
  | ok (id : String)
  | lagged
  | closed

def RecvItem.isClosed : RecvItem → Bool
  | closed => true
  | _ => false

/-- The `handle_reload` stream body: for each received event yield a
`reload` frame when the id matches the subscription, skip foreign ids and
lag notices, and end the stream when the channel closes. -/
def processReload (ws_id : String) : List RecvItem → List String
  | [] => []
  | RecvItem.ok id :: rest =>
    if id = ws_id then "reload" :: processReload ws_id rest
    else processReload ws_id rest
  | RecvItem.lagged :: rest => processReload ws_id rest
  | RecvItem.closed :: _ => []

/-- One message on the watcher thread's internal channel: a filesystem
event carrying the involved paths, a notify error, or disconnection. -/
inductive WatchMsg
  | event (paths : List (List String))
  | error
  | disconnected

/-- `event.paths.iter().any(|p| p.extension() == Some("md"))`. -/
def hasMdPath (paths : List (List String)) : Bool :=
  paths.any (fun p => pathExtension p == some "md")

/-- The watcher thread loop from `api_register`: publish the workspace id
for every event that touches at least one `md` path, ignore errors, and
stop on disconnection. -/
def watcherRun (watch_id : String) : List WatchMsg → List String
  | [] => []
  | WatchMsg.event paths :: rest =>
    if hasMdPath paths then watch_id :: watcherRun watch_id rest
    else watcherRun watch_id rest
  | WatchMsg.error :: rest => watcherRun watch_id rest
  | WatchMsg.disconnected :: _ => []

/-! ### Concrete fixtures used by witnesses -/

/-- Concrete filesystem snapshot: a directory `/r` containing one file
`a.md`. -/
def fsA : FileSystem where
  canonicalize := fun s =>
    if s = "/r" then some ["r"]
    else if s = "/r/a.md" then some ["r", "a.md"]
    else none
  isDir := fun c => c = ["r"]

/-- Concrete filesystem snapshot: a directory `/tmp/docs` containing
`sub/b.md`, mirroring the spec's concrete scenario. -/
def fsB : FileSystem where
  canonicalize := fun s =>
    if s = "/tmp/docs" then some ["tmp", "docs"]
    else if s = "/tmp/docs/sub/b.md" then some ["tmp", "docs", "sub", "b.md"]
    else none
  isDir := fun c => c = ["tmp", "docs"]

def docsId : String := generate_workspace_id ["tmp", "docs"]

def wsDocs : Workspace :=
  { id := docsId, root_dir := ["tmp", "docs"], name := "docs" }

def stDocs : AppState := (api_register fsB st0 "/tmp/docs").1

/-! ### Theorems -/

theorem trimLeadingSlashes_slash_append (p : String) :
    trimLeadingSlashes ("/" ++ p) = trimLeadingSlashes p := by
  simp [trimLeadingSlashes, String.toList, String.data_append]

theorem dropWhile_slash_head (l : List Char) :
    isAbsolutePath (String.mk (l.dropWhile (fun c => c = '/'))) = false := by
  induction l with
  | nil => rfl
  | cons c t ih =>
    by_cases hc : c = '/'
    · simpa [List.dropWhile, hc] using ih
    · simp [List.dropWhile, hc, isAbsolutePath]

theorem trimmed_not_absolute (p : String) :
    isAbsolutePath (trimLeadingSlashes p) = false :=
  dropWhile_slash_head p.toList

/-- C1: for every workspace root and every caller-supplied requested path,
`validate_path` either returns the canonical form of the joined path — a
path equal to or a descendant (component-wise extension) of the canonical
form of the root, the latter recomputed at check time — or rejects; a
requested path whose target does not exist (canonicalization fails) is
always rejected. -/
theorem validate_path_confined (fs : FileSystem) (root requested : String) :
    (∀ p, validate_path fs root requested = some p →
      ∃ rc, fs.canonicalize root = some rc ∧ rc <+: p ∧
        fs.canonicalize (rustJoin root (trimLeadingSlashes requested)) = some p) ∧
    (fs.canonicalize (rustJoin root (trimLeadingSlashes requested)) = none →
      validate_path fs root requested = none) := by
  unfold validate_path
  constructor
  · intro p hp
    cases hfull : fs.canonicalize (rustJoin root (trimLeadingSlashes requested)) with
    | none => simp [hfull] at hp
    | some canonical =>
      cases hroot : fs.canonicalize root with
      | none => simp [hfull, hroot] at hp
      | some rc =>
        simp only [hfull, hroot] at hp
        by_cases hpre : rc.isPrefixOf canonical
        · simp only [hpre, if_pos] at hp
          obtain rfl : canonical = p := Option.some.inj hp
          exact ⟨rc, rfl, List.isPrefixOf_iff_prefix.mp hpre, rfl⟩
        · simp [hpre] at hp
  · intro hfull
    simp [hfull]

theorem validate_path_confined_witness :
    validate_path fsA "/r" "a.md" = some ["r", "a.md"] ∧
    ∃ rc, fsA.canonicalize "/r" = some rc ∧ rc <+: ["r", "a.md"] ∧
      fsA.canonicalize (rustJoin "/r" (trimLeadingSlashes "a.md")) = some ["r", "a.md"] :=
  ⟨by decide, (validate_path_confined fsA "/r" "a.md").1 ["r", "a.md"] (by decide)⟩

/-- C10: `validate_path` strips all leading `/` characters from the
requested path before joining, so prepending a `/` to the requested path
never changes the result, and the cleaned path is never absolute — it can
never take the root-replacing branch of `Path::join` and is always
interpreted relative to the root. -/
theorem validate_path_strips_leading_slashes (fs : FileSystem) (root p : String) :
    validate_path fs root ("/" ++ p) = validate_path fs root p ∧
    isAbsolutePath (trimLeadingSlashes p) = false := by
  refine ⟨?_, trimmed_not_absolute p⟩
  unfold validate_path
  rw [trimLeadingSlashes_slash_append]

theorem lookup_append_of_none {β : Type} (k : String) (l l2 : List (String × β))
    (h : l.lookup k = none) : (l ++ l2).lookup k = l2.lookup k := by
  induction l with
  | nil => rfl
  | cons a t ih =>
    cases hk : (k == a.1) with
    | true => simp [List.lookup, hk] at h
    | false =>
      simp only [List.lookup, hk] at h
      simpa [List.lookup, hk] using ih h

theorem not_mem_keys_of_lookup_none {β : Type} (k : String) (l : List (String × β))
    (h : l.lookup k = none) : k ∉ l.map Prod.fst := by
  induction l with
  | nil => simp
  | cons a t ih =>
    cases hk : (k == a.1) with
    | true => simp [List.lookup, hk] at h
    | false =>
      simp only [List.lookup, hk] at h
      simp only [List.map, List.mem_cons]
      rintro (rfl | hmem)
      · simp at hk
      · exact ih h hmem

theorem findSome_of_split {α β : Type} (f : α → Option β) (pre : List α) (x : α)
    (post : List α) (b : β) (hpre : ∀ a ∈ pre, f a = none) (hx : f x = some b) :
    (pre ++ x :: post).findSome? f = some b := by
  induction pre with
  | nil => simp [List.findSome?, hx]
  | cons a t ih =>
    have ha : f a = none := hpre a (List.mem_cons_self a t)
    have ht : ∀ y ∈ t, f y = none := fun y hy => hpre y (List.mem_cons_of_mem a hy)
    simpa [List.findSome?, ha] using ih ht

theorem findSome_of_all_none {α β : Type} (f : α → Option β) (l : List α)
    (h : ∀ a ∈ l, f a = none) : l.findSome? f = none := by
  induction l with
  | nil => rfl
  | cons a t ih =>
    have ha : f a = none := h a (List.mem_cons_self a t)
    have ht : ∀ y ∈ t, f y = none := fun y hy => h y (List.mem_cons_of_mem a hy)
    simpa [List.findSome?, ha] using ih ht

/-- C5: an SSE reload stream subscribed with workspace id `ws_id` emits a
reload frame exactly for the received events carrying `ws_id`; events for
other workspace ids are discarded, lag notices are skipped, and the
stream ends at channel close. -/
theorem reload_stream_filters (ws_id : String) (items : List RecvItem) :
    processReload ws_id items =
      (items.takeWhile (fun i => ! i.isClosed)).filterMap
        (fun i => match i with
          | RecvItem.ok id => if id = ws_id then some "reload" else none
          | _ => none) := by
  induction items with
  | nil => rfl
  | cons i rest ih =>
    cases i with
    | ok id =>
      by_cases hid : id = ws_id <;>
        simp [processReload, List.takeWhile, RecvItem.isClosed, hid, ih]
    | lagged => simpa [processReload, List.takeWhile, RecvItem.isClosed] using ih
    | closed => rfl

/-- C6: a watcher publishes its workspace id for a received filesystem
event exactly when the event involves at least one path with the `md`
extension; an event touching only non-markdown paths publishes nothing. -/
theorem watcher_publishes_iff_markdown (watch_id : String)
    (paths : List (List String)) (rest : List WatchMsg) :
    watcherRun watch_id (WatchMsg.event paths :: rest) =
      (if ∃ p ∈ paths, pathExtension p = some "md"
       then watch_id :: watcherRun watch_id rest
       else watcherRun watch_id rest) := by
  have hiff : hasMdPath paths = true ↔ ∃ p ∈ paths, pathExtension p = some "md" := by
    simp [hasMdPath, List.any_eq_true]
  by_cases hm : ∃ p ∈ paths, pathExtension p = some "md"
  · rw [if_pos hm]
    simp [watcherRun, hiff.mpr hm]
  · rw [if_neg hm]
    have hfalse : hasMdPath paths = false := by
      cases hb : hasMdPath paths
      · rfl
      · exact absurd (hiff.mp hb) hm
    simp [watcherRun, hfalse]

/-- C4: active-file resolution canonicalizes the input path; for the
first registry entry (in iteration order) whose re-canonicalized root is
a component-wise prefix of the input, it publishes `Focus{id, relative}`
followed by `Navigate{url}` in that order and answers
`/view/<id>/<relative>` with that id; when no entry's root is a prefix it
answers `NotInAnyWorkspace` and publishes nothing. -/
theorem active_file_resolution (fs : FileSystem) (st : AppState)
    (queryPath : String) (canonical_path : List String)
    (hq : fs.canonicalize queryPath = some canonical_path) :
    (∀ pre id w post workspace_canonical,
      st.workspaces = pre ++ (id, w) :: post →
      (∀ e ∈ pre, wsMatch fs canonical_path e = none) →
      fs.canonicalize (pathToString w.root_dir) = some workspace_canonical →
      workspace_canonical.isPrefixOf canonical_path = true →
      api_active fs st queryPath =
        ([WsCommand.focus id
            (String.intercalate "/" (canonical_path.drop workspace_canonical.length)),
          WsCommand.navigate ("/view/" ++ id ++ "/" ++
            String.intercalate "/" (canonical_path.drop workspace_canonical.length))],
         ActiveOutcome.ok ("/view/" ++ id ++ "/" ++
            String.intercalate "/" (canonical_path.drop workspace_canonical.length)) id)) ∧
    ((∀ e ∈ st.workspaces, wsMatch fs canonical_path e = none) →
      api_active fs st queryPath = ([], ActiveOutcome.notInAnyWorkspace)) := by
  constructor
  · intro pre id w post workspace_canonical hsplit hpre hwc hprefix
    have hhit : wsMatch fs canonical_path (id, w) =
        some (id, canonical_path.drop workspace_canonical.length) := by
      simp [wsMatch, hwc, hprefix]
    have hfind : st.workspaces.findSome? (wsMatch fs canonical_path) =
        some (id, canonical_path.drop workspace_canonical.length) := by
      rw [hsplit]
      exact findSome_of_split _ pre (id, w) post _ hpre hhit
    simp [api_active, hq, hfind]
  · intro hall
    have hfind : st.workspaces.findSome? (wsMatch fs canonical_path) = none :=
      findSome_of_all_none _ _ hall
    simp [api_active, hq, hfind]

theorem active_file_resolution_witness :
    api_active fsB stDocs "/tmp/docs/sub/b.md" =
      ([WsCommand.focus docsId "sub/b.md",
        WsCommand.navigate ("/view/" ++ docsId ++ "/sub/b.md")],
       ActiveOutcome.ok ("/view/" ++ docsId ++ "/sub/b.md") docsId) := by
  have h := (active_file_resolution fsB stDocs "/tmp/docs/sub/b.md"
      ["tmp", "docs", "sub", "b.md"] (by decide)).1
      [] docsId wsDocs [] ["tmp", "docs"]
      (by decide) (by simp) (by decide) (by decide)
  exact h

/-- C3: two register calls whose inputs canonicalize to the same root
return the same outcome (same id, name and URL), the second call leaves
the whole state — registry entry and running watchers — unchanged, and
when the id was initially absent the pair of calls starts exactly one
watcher for that canonical root. -/
theorem register_idempotent (fs : FileSystem) (st : AppState) (p1 p2 : String)
    (c : List String)
    (h1 : fs.canonicalize p1 = some c) (h2 : fs.canonicalize p2 = some c)
    (hdir : fs.isDir c = true) :
    (api_register fs (api_register fs st p1).1 p2).2 = (api_register fs st p1).2 ∧
    (api_register fs (api_register fs st p1).1 p2).1 = (api_register fs st p1).1 ∧
    (st.workspaces.lookup (generate_workspace_id c) = none →
      ((api_register fs st p1).1.runningWatchers.filter
          (fun w => w.watch_dir == c)).length =
        (st.runningWatchers.filter (fun w => w.watch_dir == c)).length + 1) := by
  cases hlk : st.workspaces.lookup (generate_workspace_id c) with
  | some ws =>
    have hst1 : (api_register fs st p1).1 = st := by
      simp [api_register, h1, hdir, hlk]
    have hout1 : (api_register fs st p1).2 =
        RegisterOutcome.ok (generate_workspace_id c)
          ((rustFileName c).getD "workspace")
          ("/view/" ++ generate_workspace_id c) := by
      simp [api_register, h1, hdir, hlk]
    have hout2 : (api_register fs (api_register fs st p1).1 p2).2 =
        RegisterOutcome.ok (generate_workspace_id c)
          ((rustFileName c).getD "workspace")
          ("/view/" ++ generate_workspace_id c) := by
      rw [hst1]
      simp [api_register, h2, hdir, hlk]
    refine ⟨hout2.trans hout1.symm, ?_, ?_⟩
    · rw [hst1]
      simp [api_register, h2, hdir, hlk, hst1]
    · intro hnone
      simp at hnone
  | none =>
    have hst1 : (api_register fs st p1).1 =
        { workspaces :=
            st.workspaces ++
              [(generate_workspace_id c,
                { id := generate_workspace_id c, root_dir := c,
                  name := (rustFileName c).getD "workspace" })],
          runningWatchers :=
            st.runningWatchers ++
              [{ watch_id := generate_workspace_id c, watch_dir := c }] } := by
      simp [api_register, h1, hdir, hlk]
    have hlkR : ((st.workspaces ++
        [(generate_workspace_id c,
          ({ id := generate_workspace_id c, root_dir := c,
             name := (rustFileName c).getD "workspace" } : Workspace))]).lookup
        (generate_workspace_id c)).isSome = true := by
      rw [lookup_append_of_none _ _ _ hlk]
      simp [List.lookup]
    refine ⟨?_, ?_, ?_⟩
    · have hout1 : (api_register fs st p1).2 =
          RegisterOutcome.ok (generate_workspace_id c)
            ((rustFileName c).getD "workspace")
            ("/view/" ++ generate_workspace_id c) := by
        simp [api_register, h1, hdir, hlk]
      have hout2 : (api_register fs (api_register fs st p1).1 p2).2 =
          RegisterOutcome.ok (generate_workspace_id c)
            ((rustFileName c).getD "workspace")
            ("/view/" ++ generate_workspace_id c) := by
        rw [hst1]
        simp [api_register, h2, hdir, hlkR]
      exact hout2.trans hout1.symm
    · rw [hst1]
      simp [api_register, h2, hdir, hlkR]
    · intro _
      rw [hst1]
      simp [List.filter_append]

theorem register_idempotent_witness :
    (api_register fsB (api_register fsB st0 "/tmp/docs").1 "/tmp/docs").2 =
        (api_register fsB st0 "/tmp/docs").2 ∧
    (api_register fsB (api_register fsB st0 "/tmp/docs").1 "/tmp/docs").1 =
        (api_register fsB st0 "/tmp/docs").1 ∧
    ((api_register fsB st0 "/tmp/docs").1.runningWatchers.filter
        (fun w => w.watch_dir == ["tmp", "docs"])).length =
      (st0.runningWatchers.filter (fun w => w.watch_dir == ["tmp", "docs"])).length + 1 := by
  have h := register_idempotent fsB st0 "/tmp/docs" "/tmp/docs" ["tmp", "docs"]
    (by decide) (by decide) (by decide)
  exact ⟨h.1, h.2.1, h.2.2 (by decide)⟩

/-- C9: register answers the `InvalidPath` client error (HTTP 400) if and
only if the input cannot be canonicalized or the canonical path is not a
directory, and in that case the whole state — registry and running
watchers — is unchanged, so no watcher is started. -/
theorem register_invalid_path_iff (fs : FileSystem) (st : AppState) (p : String) :
    ((api_register fs st p).2.isClientError = true ↔
      fs.canonicalize p = none ∨
        ∃ c, fs.canonicalize p = some c ∧ fs.isDir c = false) ∧
    ((api_register fs st p).2.isClientError = true → (api_register fs st p).1 = st) := by
  cases hc : fs.canonicalize p with
  | none =>
    constructor
    · simp [api_register, hc, RegisterOutcome.isClientError]
    · intro _
      simp [api_register, hc]
  | some c =>
    cases hd : fs.isDir c with
    | true =>
      constructor
      · simp [api_register, hc, hd, RegisterOutcome.isClientError]
      · intro habs
        simp [api_register, hc, hd, RegisterOutcome.isClientError] at habs
    | false =>
      constructor
      · simp [api_register, hc, hd, RegisterOutcome.isClientError]
      · intro _
        simp [api_register, hc, hd]

theorem register_invalid_path_iff_witness :
    (api_register fsB st0 "/nope").2.isClientError = true ∧
    (api_register fsB st0 "/nope").1 = st0 := by
  have h := register_invalid_path_iff fsB st0 "/nope"
  have he : (api_register fsB st0 "/nope").2.isClientError = true :=
    h.1.mpr (Or.inl (by decide))
  exact ⟨he, h.2 he⟩

/-- C7 counterexample: the id keeps only the root's final component and
16 bits of the hash, so the two distinct canonical roots `/a57/d` and
`/a266/d` receive the same workspace id (`d-ae5f`). -/
theorem workspace_id_collision :
    generate_workspace_id ["a57", "d"] = generate_workspace_id ["a266", "d"] ∧
    (["a57", "d"] : List String) ≠ ["a266", "d"] :=
  ⟨by decide, by decide⟩

/-- C7 (amended): the workspace id is a pure function of the canonical
root, and the registry never holds two entries with the same id —
`register` preserves distinctness of the keys because a present id is
never inserted again — but distinct canonical roots can produce the same
id (see the collision counterexample), in which case the colliding root
is not registered separately. -/
theorem workspace_ids_nodup (fs : FileSystem) (st : AppState) (p : String)
    (h : (st.workspaces.map Prod.fst).Nodup) :
    ((api_register fs st p).1.workspaces.map Prod.fst).Nodup := by
  cases hc : fs.canonicalize p with
  | none => simpa [api_register, hc] using h
  | some c =>
    cases hd : fs.isDir c with
    | false => simpa [api_register, hc, hd] using h
    | true =>
      cases hlk : st.workspaces.lookup (generate_workspace_id c) with
      | some ws => simpa [api_register, hc, hd, hlk] using h
      | none =>
        have hnotin : generate_workspace_id c ∉ st.workspaces.map Prod.fst :=
          not_mem_keys_of_lookup_none _ _ hlk
        simp [api_register, hc, hd, hlk, List.nodup_append, h, hnotin]

theorem workspace_ids_nodup_witness :
    ((api_register fsB st0 "/tmp/docs").1.workspaces.map Prod.fst).Nodup :=
  workspace_ids_nodup fsB st0 "/tmp/docs" (by decide)

/-- C8 counterexample: `api_scroll` performs no range check, so the query
`percent=1000` publishes a `Scroll` command whose percent exceeds 100. -/
theorem scroll_percent_unclamped :
    api_scroll "1000" = some [WsCommand.scroll 1000] ∧ ¬(1000 ≤ 100) :=
  ⟨by decide, by decide⟩

/-- C8 (amended): every `Scroll` command published by the scroll endpoint
carries exactly the `u32` percent parsed from the query, with no clamping
or validation to the range 0..100. -/
theorem scroll_publishes_verbatim (query : String) (percent : Nat)
    (h : parseU32 query = some percent) :
    api_scroll query = some [WsCommand.scroll percent] := by
  simp [api_scroll, h]

theorem scroll_publishes_verbatim_witness :
    api_scroll "42" = some [WsCommand.scroll 42] :=
  scroll_publishes_verbatim "42" 42 (by decide)

/-- C2: the claim (and the code's own comment "Drop the watcher handle to
stop the file watcher thread") says unregister stops the watcher, but
dropping a `std::thread::JoinHandle` only detaches the thread: after a
successful unregister of the `/tmp/docs` workspace, its watcher thread is
still running, and a later markdown change still publishes a ReloadEvent
carrying the removed workspace id. -/
theorem unregister_leaves_watcher_running :
    (api_unregister stDocs docsId).2 = UnregisterOutcome.ok docsId ∧
    (api_unregister stDocs docsId).1.workspaces = [] ∧
    (api_unregister stDocs docsId).1.runningWatchers =
      [{ watch_id := docsId, watch_dir := ["tmp", "docs"] }] ∧
    watcherRun docsId [WatchMsg.event [["tmp", "docs", "sub", "b.md"]]] = [docsId] :=
  ⟨by decide, by decide, by decide, by decide⟩

end Mdv
